import Mathlib

/-!
Verification development for the sliding-number-puzzle board engine
(src/js/core/Board.js, src/js/ui/Block.js, and the victory-scene star
rating), shallowly embedded in Lean.

Conventions of the embedding:
* JS numbers used as grid coordinates and cell values are nonnegative in
  every reachable code path of the board logic, so they are modelled as
  `Nat`; the two `Math.abs(a - b)` computations in `canMove` are modelled
  with integer subtraction (`Int`) followed by `natAbs`, which is exactly
  `Math.abs` on integers.  The raw constructor, which can be called with a
  non-positive size and then stores `size - 1` in `emptyRow`, is modelled
  separately with `Int` fields (`RawBoard`).
* The mutable 2-d array `this.grid` is modelled as a function
  `Nat → Nat → Nat`; the in-place assignment `grid[r][c] = v` becomes the
  pointwise update `update2`.
* A JS `Block` object is identified by its `value` field (cell values are
  pairwise distinct in every reachable state, and `Board` looks blocks up
  with `getBlockByValue`/`getBlock`); mutating the found object becomes
  mapping the update over the block list, which touches exactly the blocks
  with that value.
* `async`/`await`: `moveBlock` runs synchronously from its entry to the
  `await block.setPixelPosition(...)` suspension point
  (`moveBlockStart`), and the continuation after the `await`
  (`moveBlockSettle`, then `_processQueue`) runs later.  `moveBlock`
  below is the composite behaviour of one call that settles without any
  concurrent caller, and `queuedRun` is the interleaving in which further
  requests arrive while the first animation is in flight.
-/

/-- A `Block` from src/js/ui/Block.js restricted to its logical fields:
`value` (0 is the blank), and the logical `row`/`col`.  Pixel positions,
colors and animation state are presentation-only and are not part of the
puzzle state. -/
structure Block where
  value : Nat
  row : Nat
  col : Nat
deriving DecidableEq, Repr

/-- An entry of `this.moveHistory` (Board.js line 176): the moved value,
where it came from (`from` in the source, a reserved word in Lean) and the
blank cell it moved into. -/
structure MoveRecord where
  value : Nat
  fromPos : Nat × Nat
  toPos : Nat × Nat
deriving DecidableEq, Repr

/-- The logical state of a `Board` (src/js/core/Board.js constructor):
grid, block collection, tracked blank cell, move counter, move history,
the animation lock and the pending move queue.  A queue entry is the
identifying value of the requested block together with the `animate`
flag. -/
structure BoardState where
  size : Nat
  grid : Nat → Nat → Nat
  blocks : List Block
  emptyRow : Nat
  emptyCol : Nat
  moveCount : Nat
  moveHistory : List MoveRecord
  isAnimating : Bool
  moveQueue : List (Nat × Bool)

/-- Pointwise update of the grid function: the in-place array write
`this.grid[r][c] = v`. -/
def update2 (g : Nat → Nat → Nat) (r c v : Nat) : Nat → Nat → Nat :=
  fun r0 c0 => if r0 = r ∧ c0 = c then v else g r0 c0

/-- The value `_initGrid` stores at cell `(r, c)`: `r*size+c+1`, except
the final cell, which stores the blank `0` (Board.js lines 57-64). -/
def solvedVal (n r c : Nat) : Nat :=
  if r * n + c + 1 < n * n then r * n + c + 1 else 0

/-- The solved grid produced by `_initGrid`; cells outside the `n × n`
board (never read by the board logic) default to 0. -/
def mkGrid (n : Nat) : Nat → Nat → Nat :=
  fun r c => if r < n ∧ c < n then solvedVal n r c else 0

/-- The inner column loop of `_createBlocks` (Board.js lines 78-97): the
blocks of row `r`, in column order. -/
def rowBlocks (n : Nat) (g : Nat → Nat → Nat) (r : Nat) : List Block :=
  (List.range n).map fun c => ⟨g r c, r, c⟩

/-- `_createBlocks` (Board.js lines 75-98): one block per cell, created
in row-major order, holding the current grid value at its cell. -/
def initialBlocks (n : Nat) (g : Nat → Nat → Nat) : List Block :=
  (List.range n).flatMap (rowBlocks n g)

/-- The `Board` constructor followed by `_initGrid` for a positive size:
solved grid, blank tracked at `(size-1, size-1)`, fresh blocks, zero
move count, empty history, animation lock off, empty queue. -/
def mkBoard (n : Nat) : BoardState :=
  { size := n
    grid := mkGrid n
    blocks := initialBlocks n (mkGrid n)
    emptyRow := n - 1
    emptyCol := n - 1
    moveCount := 0
    moveHistory := []
    isAnimating := false
    moveQueue := [] }

/-- `reset()` (Board.js line 396) re-runs `_initGrid` on the existing
board, rebuilding grid and blocks and clearing counter and history. -/
def resetBoard (s : BoardState) : BoardState :=
  { s with
    grid := mkGrid s.size
    blocks := initialBlocks s.size (mkGrid s.size)
    emptyRow := s.size - 1
    emptyCol := s.size - 1
    moveCount := 0
    moveHistory := [] }

/-- `destroy()` (Board.js line 442): stops block animations (pixel-level
only) and empties the block collection. -/
def destroy (s : BoardState) : BoardState :=
  { s with blocks := [] }

/-- `canMove(row, col)` (Board.js lines 148-155): the requested cell must
differ from the blank by exactly one row or exactly one column. -/
def canMove (s : BoardState) (row col : Nat) : Bool :=
  let rowDiff := ((row : Int) - (s.emptyRow : Int)).natAbs
  let colDiff := ((col : Int) - (s.emptyCol : Int)).natAbs
  (rowDiff == 1 && colDiff == 0) || (rowDiff == 0 && colDiff == 1)

/-- `getBlock(row, col)` (Board.js line 134): first block in creation
order whose logical cell is `(row, col)`. -/
def getBlock (s : BoardState) (row col : Nat) : Option Block :=
  s.blocks.find? fun b => b.row == row && b.col == col

/-- `getBlockByValue(value)` (Board.js line 141). -/
def getBlockByValue (s : BoardState) (v : Nat) : Option Block :=
  s.blocks.find? fun b => b.value == v

/-- How a `moveBlock` call leaves its synchronous prefix: rejected
(`false`, untouched state), queued for later (`false`), or started (the
grid is already mutated and the slide animation is in flight). -/
inductive MoveOutcome where
  | rejected
  | queued
  | started
deriving DecidableEq, Repr

/-- The synchronous prefix of `moveBlock(block, animate)` (Board.js lines
163-204, up to the `await`): reject a missing or blank block and a block
not adjacent to the blank; enqueue the request while a previous animation
is in flight; otherwise take the animation lock, push the history record,
swap the grid cells and retarget the blank.  The moved block's own
`row`/`col` are *not* updated here: that happens only after the
animation settles. -/
def moveBlockStart (s : BoardState) (v : Nat) (a : Bool) : MoveOutcome × BoardState :=
  match getBlockByValue s v with
  | none => (.rejected, s)
  | some b =>
    if b.value == 0 then (.rejected, s)
    else if !(canMove s b.row b.col) then (.rejected, s)
    else if s.isAnimating then (.queued, { s with moveQueue := s.moveQueue ++ [(v, a)] })
    else (.started,
      { s with
        isAnimating := true
        moveHistory := s.moveHistory ++
          [{ value := b.value, fromPos := (b.row, b.col), toPos := (s.emptyRow, s.emptyCol) }]
        grid := update2 (update2 s.grid s.emptyRow s.emptyCol b.value) b.row b.col 0
        emptyRow := b.row
        emptyCol := b.col })

/-- The continuation of `moveBlock` after the animation settles (Board.js
lines 206-211): the moved block's logical cell becomes the blank's old
cell, the move counter increments, the animation lock is released. -/
def moveBlockSettle (s : BoardState) (v oldR oldC : Nat) : BoardState :=
  { s with
    blocks := s.blocks.map fun b =>
      if b.value == v then { b with row := oldR, col := oldC } else b
    moveCount := s.moveCount + 1
    isAnimating := false }

/-- One dequeued request run to completion by `_processQueue` (Board.js
lines 222-236): a fresh `moveBlock` call on a quiescent board, whose own
trailing `_processQueue` call is a no-op behind the `isProcessingQueue`
guard. -/
def processOnce (s : BoardState) (v : Nat) (a : Bool) : BoardState :=
  match moveBlockStart s v a with
  | (.started, s1) => moveBlockSettle s1 v s.emptyRow s.emptyCol
  | (_, s1) => s1

/-- The `_processQueue` drain loop: requests are popped from the front of
the queue one at a time, each running to completion before the next is
popped.  The queue never grows during a drain (no caller is enqueueing),
so its current length bounds the number of iterations. -/
def drainFuel : Nat → BoardState → BoardState
  | 0, s => s
  | fuel + 1, s =>
    match s.moveQueue with
    | [] => s
    | (v, a) :: rest => drainFuel fuel (processOnce { s with moveQueue := rest } v a)

/-- `_processQueue` on a board with no concurrent callers. -/
def processQueue (s : BoardState) : BoardState :=
  drainFuel s.moveQueue.length s

/-- A complete `moveBlock(block, animate)` call that settles without any
concurrent caller: the synchronous prefix, then (when the move started)
the post-animation continuation and the queue drain.  The `Bool` is the
value the returned promise resolves to. -/
def moveBlock (s : BoardState) (v : Nat) (a : Bool) : Bool × BoardState :=
  match moveBlockStart s v a with
  | (.started, s1) => (true, processQueue (moveBlockSettle s1 v s.emptyRow s.emptyCol))
  | (_, s1) => (false, s1)

/-- `moveAt(row, col, animate)` (Board.js line 241): look the block up by
cell and delegate; `moveBlock(undefined)` returns false. -/
def moveAt (s : BoardState) (r c : Nat) (a : Bool) : Bool × BoardState :=
  match getBlock s r c with
  | none => (false, s)
  | some b => moveBlock s b.value a

/-- The four slide directions used by `shuffle`. -/
inductive Dir where
  | up
  | down
  | left
  | right
deriving DecidableEq, Repr

/-- A candidate entry of `possibleMoves` inside `shuffle`: the cell of
the block that would slide, and the direction label used for the
no-immediate-reverse rule. -/
structure Cand where
  row : Nat
  col : Nat
  dir : Dir
deriving DecidableEq, Repr

/-- The `possibleMoves` list built by one `shuffle` iteration (Board.js
lines 278-311): each in-bounds orthogonal neighbour of the blank, except
the one that would immediately undo the previous slide, in the fixed
order up, down, left, right. -/
def possibleMoves (s : BoardState) (last : Option Dir) : List Cand :=
  (if s.emptyRow > 0 ∧ last ≠ some .down then
    [⟨s.emptyRow - 1, s.emptyCol, .up⟩] else []) ++
  (if s.emptyRow < s.size - 1 ∧ last ≠ some .up then
    [⟨s.emptyRow + 1, s.emptyCol, .down⟩] else []) ++
  (if s.emptyCol > 0 ∧ last ≠ some .right then
    [⟨s.emptyRow, s.emptyCol - 1, .left⟩] else []) ++
  (if s.emptyCol < s.size - 1 ∧ last ≠ some .left then
    [⟨s.emptyRow, s.emptyCol + 1, .right⟩] else [])

/-- The direct slide performed by one `shuffle` iteration (Board.js lines
316-343): swap the chosen cell with the blank and move that block's
logical cell onto the blank's old cell, bypassing `moveBlock` entirely
(no animation, no sound, no queueing, no move counting).  The source
reads `block.value` without a null check; under the board invariant the
lookup always succeeds, and the impossible `none` branch leaves the
state unchanged. -/
def doSlide (s : BoardState) (r c : Nat) : BoardState :=
  match getBlock s r c with
  | none => s
  | some b =>
    { s with
      grid := update2 (update2 s.grid s.emptyRow s.emptyCol b.value) b.row b.col 0
      emptyRow := b.row
      emptyCol := b.col
      blocks := s.blocks.map fun bb =>
        if bb.value == b.value then { bb with row := s.emptyRow, col := s.emptyCol } else bb }

/-- One iteration of the `shuffle` loop: index the random draw into
`possibleMoves`; `if (move)` skips the slide (and keeps `lastDirection`)
when the lookup yields nothing. -/
def shuffleStep (s : BoardState) (last : Option Dir) (idx : Nat) : BoardState × Option Dir :=
  match (possibleMoves s last).get? idx with
  | none => (s, last)
  | some mv => (doSlide s mv.row mv.col, some mv.dir)

/-- The `shuffle` loop: `k` remaining iterations, `i` the current index
into the sequence `ch` of random draws, threading `lastDirection`. -/
def shuffleAux : BoardState → Option Dir → (Nat → Nat) → Nat → Nat → BoardState
  | s, _, _, _, 0 => s
  | s, last, ch, i, k + 1 =>
    let p := shuffleStep s last (ch i)
    shuffleAux p.1 p.2 ch (i + 1) k

/-- `shuffle(moveCount)` (Board.js lines 263-350).  `moveCount || (size
=== 4 ? 80 : 150)` defaults on every falsy argument, so 0 selects the
default count.  The outcome of `Math.random()` at iteration `i` is
abstracted as the index `ch i`; the loop runs with the animation lock
held and finishes by clearing counter, history and the lock. -/
def shuffle (s : BoardState) (mc : Nat) (ch : Nat → Nat) : BoardState :=
  let moves := if mc = 0 then (if s.size = 4 then 80 else 150) else mc
  let s1 := shuffleAux { s with isAnimating := true } none ch 0 moves
  { s1 with moveCount := 0, moveHistory := [], isAnimating := false }

/-- `checkWin()` (Board.js lines 356-371): every cell holds
`row*size+col+1`, except the final cell which must hold the blank. -/
def checkWin (s : BoardState) : Bool :=
  (List.range s.size).all fun row =>
    (List.range s.size).all fun col =>
      if row = s.size - 1 ∧ col = s.size - 1 then s.grid row col == 0
      else s.grid row col == row * s.size + col + 1

/-- A sequence of `moveBlock` calls, each identified by the value of the
clicked block, each settling before the next is issued. -/
def applyMoves : BoardState → List Nat → BoardState
  | s, [] => s
  | s, v :: rest => applyMoves (moveBlock s v true).2 rest

/-- The 4x4 scoring table of `_calculateStars` (VictoryScene): pairs of
(stars, maxTime in seconds). -/
def timeLimits4x4 : List (Nat × Nat) := [(3, 60), (2, 180), (1, 300)]

/-- The 5x5 scoring table of `_calculateStars`. -/
def timeLimits5x5 : List (Nat × Nat) := [(3, 150), (2, 360), (1, 720)]

/-- `_calculateStars` as a function of the board size and the elapsed
whole seconds (`Math.floor(timer.getTime() / 1000)`): the first table row
whose `maxTime` is not exceeded gives the stars, otherwise 0. -/
def calculateStars (boardSize elapsed : Nat) : Nat :=
  let limits := if boardSize = 4 then timeLimits4x4 else timeLimits5x5
  match limits.find? fun l => elapsed ≤ l.2 with
  | some l => l.1
  | none => 0

/-- The `Board` constructor plus `_initGrid` for an arbitrary (possibly
non-positive) integer size, keeping the raw JS arithmetic: `emptyRow`
and `emptyCol` are initialised to `size - 1` and are only rewritten by
the `_initGrid` loop (to the same value) when the loop body runs; with a
non-positive size both loops run zero times, leaving an empty grid and
an empty block list, and the constructor returns normally - nothing on
this path throws. -/
structure RawBoard where
  size : Int
  grid : List (List Nat)
  blocks : List Block
  emptyRow : Int
  emptyCol : Int
  moveCount : Nat
  moveHistory : List MoveRecord
  isAnimating : Bool
deriving DecidableEq, Repr

/-- See `RawBoard`. -/
def mkBoardRaw (size : Int) : RawBoard :=
  let n := size.toNat
  { size := size
    grid := (List.range n).map fun r => (List.range n).map fun c => solvedVal n r c
    blocks := initialBlocks n (mkGrid n)
    emptyRow := size - 1
    emptyCol := size - 1
    moveCount := 0
    moveHistory := []
    isAnimating := false }

/-- The interleaving named in the spec: `m1` issued on a quiescent board,
then `m2` and `m3` issued while `m1`'s animation is still in flight, then
the animation settles and `_processQueue` drains whatever was queued.
When `m1` does not start an animation there is no in-flight window and
the run is just that single call. -/
def queuedRun (s : BoardState) (m1 m2 m3 : Nat) : BoardState :=
  match moveBlockStart s m1 true with
  | (.started, s1) =>
    let s2 := (moveBlockStart s1 m2 true).2
    let s3 := (moveBlockStart s2 m3 true).2
    processQueue (moveBlockSettle s3 m1 s.emptyRow s.emptyCol)
  | (_, s1) => s1

/-- The reference behaviour: the same three requests issued strictly one
after another, each settling before the next is issued. -/
def sequentialRun (s : BoardState) (m1 m2 m3 : Nat) : BoardState :=
  (moveBlock (moveBlock (moveBlock s m1 true).2 m2 true).2 m3 true).2

/-! ## Proof-side definitions -/

/-- The common core of one slide (shared by the accepted `moveBlock` path
and one effective `shuffle` iteration): swap the blank with block `b`'s
cell, retarget the blank, and move every block holding `b`'s value (under
the board invariant, exactly `b`) onto the blank's old cell. -/
def slideBlock (s : BoardState) (b : Block) : BoardState :=
  { s with
    grid := update2 (update2 s.grid s.emptyRow s.emptyCol b.value) b.row b.col 0
    emptyRow := b.row
    emptyCol := b.col
    blocks := s.blocks.map fun bb =>
      if bb.value == b.value then { bb with row := s.emptyRow, col := s.emptyCol } else bb }

/-- The net effect of one accepted, fully settled `moveBlock` call on a
quiescent board: the slide plus the history record and the counter
increment. -/
def moveApplied (s : BoardState) (b : Block) : BoardState :=
  { slideBlock s b with
    moveHistory := s.moveHistory ++
      [{ value := b.value, fromPos := (b.row, b.col), toPos := (s.emptyRow, s.emptyCol) }]
    moveCount := s.moveCount + 1 }

/-- Each value below `n*n` sits in exactly one cell of the `n × n` board:
the grid is a permutation of `0 .. n*n-1`. -/
def PermGrid (n : Nat) (g : Nat → Nat → Nat) : Prop :=
  ∀ v, v < n * n → ∃! p : Nat × Nat, (p.1 < n ∧ p.2 < n) ∧ g p.1 p.2 = v

/-- The state invariant on the puzzle core (grid, blank, blocks) of a
board of size `n`. -/
structure CoreInv (n : Nat) (s : BoardState) : Prop where
  npos : 1 ≤ n
  size_eq : s.size = n
  perm : PermGrid n s.grid
  empty_row : s.emptyRow < n
  empty_col : s.emptyCol < n
  empty_zero : s.grid s.emptyRow s.emptyCol = 0
  rangeG : ∀ r c, r < n → c < n → s.grid r c < n * n
  blocksShape : ∃ bs, s.blocks = bs ++ [⟨0, n - 1, n - 1⟩]
    ∧ (∀ b ∈ bs, b.value ≠ 0 ∧ b.row < n ∧ b.col < n ∧ s.grid b.row b.col = b.value)
    ∧ (∀ v, 0 < v → v < n * n → ∃ b ∈ bs, b.value = v)

/-- The full invariant of a quiescent reachable board: the core invariant
plus a released animation lock and an empty queue. -/
structure BoardInv (n : Nat) (s : BoardState) extends CoreInv n s : Prop where
  anim : s.isAnimating = false
  queue : s.moveQueue = []

/-- The board states reachable through the public mutating surface:
construction, settled `moveBlock` calls, `shuffle`, and `reset`. -/
inductive Reachable (n : Nat) : BoardState → Prop where
  | init : 1 ≤ n → Reachable n (mkBoard n)
  | move : ∀ {s : BoardState} (v : Nat) (a : Bool),
      Reachable n s → Reachable n (moveBlock s v a).2
  | shuf : ∀ {s : BoardState} (mc : Nat) (ch : Nat → Nat),
      Reachable n s → Reachable n (shuffle s mc ch)
  | reset : ∀ {s : BoardState}, Reachable n s → Reachable n (resetBoard s)

/-- `checkWin` is reachable by a finite sequence of settled `moveBlock`
calls. -/
def Solvable (s : BoardState) : Prop :=
  ∃ vs : List Nat, checkWin (applyMoves s vs) = true

/-- Two board states that agree on everything `moveBlock` admission,
sliding, and `checkWin` read: size, grid, blank cell and blocks. -/
def SameCore (s t : BoardState) : Prop :=
  s.size = t.size ∧ s.grid = t.grid ∧ s.emptyRow = t.emptyRow
    ∧ s.emptyCol = t.emptyCol ∧ s.blocks = t.blocks

/-- No animation in flight and nothing queued. -/
def Quiet (s : BoardState) : Prop :=
  s.isAnimating = false ∧ s.moveQueue = []

/-- Row-major grid lookup for writing down concrete grids, mirroring a JS
array-of-arrays literal. -/
def gridOfRows (rows : List (List Nat)) : Nat → Nat → Nat :=
  fun r c => (rows.getD r []).getD c 0

/-- A board state carrying a given concrete grid (only `size` and `grid`
feed `checkWin`). -/
def stateOfRows (n : Nat) (rows : List (List Nat)) : BoardState :=
  { size := n
    grid := gridOfRows rows
    blocks := []
    emptyRow := 0
    emptyCol := 0
    moveCount := 0
    moveHistory := []
    isAnimating := false
    moveQueue := [] }

/-- The winning predicate as the spec words it: every cell holds
`row*size+col+1` except the final cell, which holds 0. -/
def WinSpec (s : BoardState) : Prop :=
  ∀ r, r < s.size → ∀ c, c < s.size →
    s.grid r c = if r = s.size - 1 ∧ c = s.size - 1 then 0 else r * s.size + c + 1

/-! ## Lemmas: one settled `moveBlock` call -/

theorem getBlockByValue_value {s : BoardState} {v : Nat} {b : Block}
    (h : getBlockByValue s v = some b) : b.value = v := by
  simp only [getBlockByValue] at h
  simpa using List.find?_some h

theorem getBlockByValue_mem {s : BoardState} {v : Nat} {b : Block}
    (h : getBlockByValue s v = some b) : b ∈ s.blocks := by
  simp only [getBlockByValue] at h
  exact List.mem_of_find?_eq_some h

theorem moveBlock_not_found {s : BoardState} {v : Nat} (a : Bool)
    (h : getBlockByValue s v = none) : moveBlock s v a = (false, s) := by
  simp [moveBlock, moveBlockStart, h]

theorem moveBlock_blank {s : BoardState} {v : Nat} {b : Block} (a : Bool)
    (h : getBlockByValue s v = some b) (h0 : b.value = 0) :
    moveBlock s v a = (false, s) := by
  simp [moveBlock, moveBlockStart, h, h0]

theorem moveBlock_illegal {s : BoardState} {v : Nat} {b : Block} (a : Bool)
    (h : getBlockByValue s v = some b) (hc : canMove s b.row b.col = false) :
    moveBlock s v a = (false, s) := by
  by_cases h0 : b.value = 0 <;> simp [moveBlock, moveBlockStart, h, h0, hc]

theorem moveBlock_accepted {s : BoardState} {v : Nat} {b : Block} (a : Bool)
    (ha : s.isAnimating = false) (hq : s.moveQueue = [])
    (h : getBlockByValue s v = some b) (h0 : b.value ≠ 0)
    (hc : canMove s b.row b.col = true) :
    moveBlock s v a = (true, moveApplied s b) := by
  have hv : b.value = v := getBlockByValue_value h
  cases s with
  | mk size grid blocks emptyRow emptyCol moveCount moveHistory isAnimating moveQueue =>
    simp only at ha hq
    subst ha; subst hq; subst hv
    simp [moveBlock, moveBlockStart, h, h0, hc, moveBlockSettle, processQueue,
      drainFuel, moveApplied, slideBlock]

/-! ## Lemmas: behaviour depends only on the core state -/

theorem checkWin_congr {s t : BoardState} (h : SameCore s t) : checkWin s = checkWin t := by
  obtain ⟨h1, h2, -, -, -⟩ := h
  simp [checkWin, h1, h2]

theorem canMove_congr {s t : BoardState} (h : SameCore s t) : canMove s = canMove t := by
  obtain ⟨-, -, h3, h4, -⟩ := h
  funext r c
  simp [canMove, h3, h4]

theorem sameCore_moveApplied {s t : BoardState} (h : SameCore s t) (b : Block) :
    SameCore (moveApplied s b) (moveApplied t b) := by
  obtain ⟨h1, h2, h3, h4, h5⟩ := h
  refine ⟨h1, ?_, ?_, ?_, ?_⟩ <;> simp [moveApplied, slideBlock, h2, h3, h4, h5]

theorem moveBlock_congr {s t : BoardState} (h : SameCore s t)
    (has : s.isAnimating = false) (hqs : s.moveQueue = [])
    (hat : t.isAnimating = false) (hqt : t.moveQueue = []) (v : Nat) (a : Bool) :
    (moveBlock s v a).1 = (moveBlock t v a).1
      ∧ SameCore (moveBlock s v a).2 (moveBlock t v a).2 := by
  have hb : getBlockByValue s v = getBlockByValue t v := by
    simp [getBlockByValue, h.2.2.2.2]
  cases hfind : getBlockByValue t v with
  | none =>
    rw [moveBlock_not_found a (hb.trans hfind), moveBlock_not_found a hfind]
    exact ⟨rfl, h⟩
  | some b =>
    by_cases h0 : b.value = 0
    · rw [moveBlock_blank a (hb.trans hfind) h0, moveBlock_blank a hfind h0]
      exact ⟨rfl, h⟩
    · have hcm : canMove s b.row b.col = canMove t b.row b.col := by
        rw [canMove_congr h]
      cases hc : canMove t b.row b.col with
      | false =>
        rw [moveBlock_illegal a (hb.trans hfind) (hcm.trans hc), moveBlock_illegal a hfind hc]
        exact ⟨rfl, h⟩
      | true =>
        rw [moveBlock_accepted a has hqs (hb.trans hfind) h0 (hcm.trans hc),
          moveBlock_accepted a hat hqt hfind h0 hc]
        exact ⟨rfl, sameCore_moveApplied h b⟩

theorem quiet_moveBlock {s : BoardState} (hq : Quiet s) (v : Nat) (a : Bool) :
    Quiet (moveBlock s v a).2 := by
  obtain ⟨ha, hqu⟩ := hq
  cases hfind : getBlockByValue s v with
  | none => rw [moveBlock_not_found a hfind]; exact ⟨ha, hqu⟩
  | some b =>
    by_cases h0 : b.value = 0
    · rw [moveBlock_blank a hfind h0]; exact ⟨ha, hqu⟩
    · cases hc : canMove s b.row b.col with
      | false => rw [moveBlock_illegal a hfind hc]; exact ⟨ha, hqu⟩
      | true =>
        rw [moveBlock_accepted a ha hqu hfind h0 hc]
        exact ⟨ha, hqu⟩

theorem applyMoves_congr {s t : BoardState} (h : SameCore s t)
    (hs : Quiet s) (ht : Quiet t) (vs : List Nat) :
    SameCore (applyMoves s vs) (applyMoves t vs) := by
  induction vs generalizing s t with
  | nil => exact h
  | cons v rest ih =>
    have hm := moveBlock_congr h hs.1 hs.2 ht.1 ht.2 v true
    exact ih hm.2 (quiet_moveBlock hs v true) (quiet_moveBlock ht v true)

theorem solvable_congr {s t : BoardState} (h : SameCore s t)
    (hs : Quiet s) (ht : Quiet t) (hsolv : Solvable t) : Solvable s := by
  obtain ⟨vs, hw⟩ := hsolv
  exact ⟨vs, (checkWin_congr (applyMoves_congr h hs ht vs)).trans hw⟩

theorem coreInv_congr {n : Nat} {s t : BoardState} (h : SameCore s t)
    (hc : CoreInv n s) : CoreInv n t := by
  obtain ⟨h1, h2, h3, h4, h5⟩ := h
  refine ⟨hc.npos, ?_, ?_, ?_, ?_, ?_, ?_, ?_⟩ <;>
    first
      | (rw [← h1]; exact hc.size_eq)
      | (rw [← h2]; exact hc.perm)
      | (rw [← h3]; exact hc.empty_row)
      | (rw [← h4]; exact hc.empty_col)
      | (rw [← h2, ← h3, ← h4]; exact hc.empty_zero)
      | (rw [← h2]; exact hc.rangeG)
      | (rw [← h5, ← h2]; exact hc.blocksShape)


/-! ## Lemmas: the freshly initialised board satisfies the invariant -/

theorem cell_lt {n r c : Nat} (hr : r < n) (hc : c < n) (hne : r ≠ n - 1 ∨ c ≠ n - 1) :
    r * n + c + 1 < n * n := by
  obtain ⟨m, rfl⟩ : ∃ m, n = m + 1 := ⟨n - 1, by omega⟩
  simp only [Nat.add_sub_cancel] at hne
  rcases hne with h | h
  · have h1 : r + 1 ≤ m := by omega
    have h2 : (r + 1) * (m + 1) ≤ m * (m + 1) := Nat.mul_le_mul_right _ h1
    nlinarith
  · have h1 : r ≤ m := by omega
    have h2 : r * (m + 1) ≤ m * (m + 1) := Nat.mul_le_mul_right _ h1
    have h3 : c + 1 ≤ m := by omega
    nlinarith

theorem last_cell_val {n : Nat} (hn : 1 ≤ n) : solvedVal n (n - 1) (n - 1) = 0 := by
  obtain ⟨m, rfl⟩ : ∃ m, n = m + 1 := ⟨n - 1, by omega⟩
  have h : m * (m + 1) + m + 1 = (m + 1) * (m + 1) := by ring
  simp only [Nat.add_sub_cancel, solvedVal, h]
  simp

theorem solvedVal_eq {n r c : Nat} (hr : r < n) (hc : c < n) (hne : r ≠ n - 1 ∨ c ≠ n - 1) :
    solvedVal n r c = r * n + c + 1 := by
  simp [solvedVal, cell_lt hr hc hne]

theorem cell_inj {n r1 c1 r2 c2 : Nat} (hc1 : c1 < n) (hc2 : c2 < n)
    (h : r1 * n + c1 = r2 * n + c2) : r1 = r2 ∧ c1 = c2 := by
  have hn : 0 < n := Nat.lt_of_le_of_lt (Nat.zero_le c1) hc1
  have h1 : (r1 * n + c1) / n = r1 := by
    rw [Nat.mul_comm r1 n, Nat.mul_add_div hn, Nat.div_eq_of_lt hc1]
    omega
  have h2 : (r2 * n + c2) / n = r2 := by
    rw [Nat.mul_comm r2 n, Nat.mul_add_div hn, Nat.div_eq_of_lt hc2]
    omega
  have hr : r1 = r2 := by rw [← h1, h, h2]
  subst hr
  exact ⟨rfl, by omega⟩

theorem mkGrid_in_bounds {n r c : Nat} (hr : r < n) (hc : c < n) :
    mkGrid n r c = solvedVal n r c := by
  simp [mkGrid, hr, hc]

theorem mkGrid_perm {n : Nat} (hn : 1 ≤ n) : PermGrid n (mkGrid n) := by
  intro v hv
  by_cases h0 : v = 0
  · subst h0
    refine ⟨(n - 1, n - 1), ⟨⟨by omega, by omega⟩, ?_⟩, ?_⟩
    · rw [mkGrid_in_bounds (by omega) (by omega)]
      exact last_cell_val hn
    · rintro ⟨r, c⟩ ⟨⟨hr, hc⟩, hval⟩
      dsimp only at hr hc hval
      rw [mkGrid_in_bounds hr hc] at hval
      have hrc : r = n - 1 ∧ c = n - 1 := by
        by_contra hne
        have hlt := cell_lt hr hc (not_and_or.mp hne)
        rw [solvedVal, if_pos hlt] at hval
        omega
      rw [Prod.ext_iff]
      exact ⟨hrc.1, hrc.2⟩
  · have hv1 : 1 ≤ v := by omega
    have hn0 : 0 < n := by omega
    have hrb : (v - 1) / n < n := by
      rw [Nat.div_lt_iff_lt_mul hn0]
      omega
    have hcb : (v - 1) % n < n := Nat.mod_lt _ hn0
    have hsum : ((v - 1) / n) * n + (v - 1) % n = v - 1 := by
      rw [Nat.mul_comm]
      exact Nat.div_add_mod _ n
    refine ⟨((v - 1) / n, (v - 1) % n), ⟨⟨hrb, hcb⟩, ?_⟩, ?_⟩
    · rw [mkGrid_in_bounds hrb hcb, solvedVal, if_pos (by omega)]
      omega
    · rintro ⟨r, c⟩ ⟨⟨hr, hc⟩, hval⟩
      dsimp only at hr hc hval
      rw [mkGrid_in_bounds hr hc, solvedVal] at hval
      by_cases hcond : r * n + c + 1 < n * n
      · rw [if_pos hcond] at hval
        have heq : r * n + c = ((v - 1) / n) * n + (v - 1) % n := by omega
        obtain ⟨h1, h2⟩ := cell_inj hc hcb heq
        rw [Prod.ext_iff]
        exact ⟨h1, h2⟩
      · rw [if_neg hcond] at hval
        omega

theorem mkGrid_range {n : Nat} (hn : 1 ≤ n) :
    ∀ r c, r < n → c < n → mkGrid n r c < n * n := by
  intro r c hr hc
  rw [mkGrid_in_bounds hr hc, solvedVal]
  split
  · assumption
  · exact Nat.mul_pos hn hn

theorem rowBlocks_last {m : Nat} (hlast : mkGrid (m + 1) m m = 0) :
    rowBlocks (m + 1) (mkGrid (m + 1)) m =
      (List.range m).map (fun c => ⟨mkGrid (m + 1) m c, m, c⟩) ++ [⟨0, m, m⟩] := by
  unfold rowBlocks
  rw [List.range_succ, List.map_append]
  simp [hlast]

theorem initialBlocks_decomp {n : Nat} (hn : 1 ≤ n) :
    ∃ bs, initialBlocks n (mkGrid n) = bs ++ [⟨0, n - 1, n - 1⟩]
      ∧ (∀ b ∈ bs, b.value ≠ 0 ∧ b.row < n ∧ b.col < n ∧ mkGrid n b.row b.col = b.value)
      ∧ (∀ v, 0 < v → v < n * n → ∃ b ∈ bs, b.value = v) := by
  obtain ⟨m, rfl⟩ : ∃ m, n = m + 1 := ⟨n - 1, by omega⟩
  simp only [Nat.add_sub_cancel]
  have hlast : mkGrid (m + 1) m m = 0 := by
    rw [mkGrid_in_bounds (by omega) (by omega)]
    simpa using last_cell_val (n := m + 1) (by omega)
  refine ⟨(List.range m).flatMap (rowBlocks (m + 1) (mkGrid (m + 1))) ++
      (List.range m).map (fun c => ⟨mkGrid (m + 1) m c, m, c⟩), ?_, ?_, ?_⟩
  · show initialBlocks (m + 1) (mkGrid (m + 1)) = _
    unfold initialBlocks
    rw [List.range_succ, List.flatMap_append]
    simp only [List.flatMap_cons, List.flatMap_nil, List.append_nil]
    rw [rowBlocks_last hlast, ← List.append_assoc]
  · intro b hb
    rcases List.mem_append.mp hb with hb | hb
    · obtain ⟨r, hr, hb⟩ := List.mem_flatMap.mp hb
      rw [List.mem_range] at hr
      unfold rowBlocks at hb
      obtain ⟨c, hc, rfl⟩ := List.mem_map.mp hb
      rw [List.mem_range] at hc
      have hval : mkGrid (m + 1) r c = r * (m + 1) + c + 1 := by
        rw [mkGrid_in_bounds (by omega) hc]
        exact solvedVal_eq (by omega) hc (by simp only [Nat.add_sub_cancel]; omega)
      refine ⟨?_, by simpa using by omega, by simpa using hc, by simp⟩
      show mkGrid (m + 1) r c ≠ 0
      omega
    · obtain ⟨c, hc, rfl⟩ := List.mem_map.mp hb
      rw [List.mem_range] at hc
      have hval : mkGrid (m + 1) m c = m * (m + 1) + c + 1 := by
        rw [mkGrid_in_bounds (by omega) (by omega)]
        exact solvedVal_eq (by omega) (by omega) (by simp only [Nat.add_sub_cancel]; omega)
      refine ⟨?_, by simp, by simpa using by omega, by simp⟩
      show mkGrid (m + 1) m c ≠ 0
      omega
  · intro v hv0 hvn
    have hn0 : 0 < m + 1 := by omega
    have hrb : (v - 1) / (m + 1) < m + 1 := by
      rw [Nat.div_lt_iff_lt_mul hn0]
      omega
    have hcb : (v - 1) % (m + 1) < m + 1 := Nat.mod_lt _ hn0
    have hsum : ((v - 1) / (m + 1)) * (m + 1) + (v - 1) % (m + 1) = v - 1 := by
      rw [Nat.mul_comm]
      exact Nat.div_add_mod _ (m + 1)
    have hval : mkGrid (m + 1) ((v - 1) / (m + 1)) ((v - 1) % (m + 1)) = v := by
      rw [mkGrid_in_bounds hrb hcb, solvedVal, if_pos (by omega)]
      omega
    have hmem : (⟨v, (v - 1) / (m + 1), (v - 1) % (m + 1)⟩ : Block)
        ∈ initialBlocks (m + 1) (mkGrid (m + 1)) := by
      unfold initialBlocks
      refine List.mem_flatMap.mpr ⟨(v - 1) / (m + 1), List.mem_range.mpr hrb, ?_⟩
      unfold rowBlocks
      refine List.mem_map.mpr ⟨(v - 1) % (m + 1), List.mem_range.mpr hcb, ?_⟩
      rw [hval]
    have hdecomp : initialBlocks (m + 1) (mkGrid (m + 1)) =
        ((List.range m).flatMap (rowBlocks (m + 1) (mkGrid (m + 1))) ++
          (List.range m).map (fun c => ⟨mkGrid (m + 1) m c, m, c⟩)) ++ [⟨0, m, m⟩] := by
      unfold initialBlocks
      rw [List.range_succ, List.flatMap_append]
      simp only [List.flatMap_cons, List.flatMap_nil, List.append_nil]
      rw [rowBlocks_last hlast, ← List.append_assoc]
    rw [hdecomp] at hmem
    rcases List.mem_append.mp hmem with hmem | hmem
    · exact ⟨_, hmem, rfl⟩
    · simp at hmem
      omega

/-! ## Lemmas: invariant preservation under one slide -/

theorem canMove_eq_manhattan (s : BoardState) (r c : Nat) :
    canMove s r c = true ↔
      ((r : Int) - (s.emptyRow : Int)).natAbs
        + ((c : Int) - (s.emptyCol : Int)).natAbs = 1 := by
  simp only [canMove, Bool.or_eq_true, Bool.and_eq_true, beq_iff_eq]
  omega

theorem boardInv_mkBoard {n : Nat} (hn : 1 ≤ n) : BoardInv n (mkBoard n) := by
  refine ⟨⟨hn, rfl, mkGrid_perm hn, show n - 1 < n by omega, show n - 1 < n by omega,
    ?_, mkGrid_range hn, initialBlocks_decomp hn⟩, rfl, rfl⟩
  show mkGrid n (n - 1) (n - 1) = 0
  rw [mkGrid_in_bounds (by omega) (by omega)]
  exact last_cell_val hn

theorem slideBlock_grid (s : BoardState) (b : Block) :
    (slideBlock s b).grid = fun r c =>
      if r = b.row ∧ c = b.col then 0
      else if r = s.emptyRow ∧ c = s.emptyCol then b.value
      else s.grid r c := by
  funext r c
  simp only [slideBlock, update2]

theorem permGrid_swap {n : Nat} {g : Nat → Nat → Nat} (hperm : PermGrid n g)
    {er ec br bc : Nat} (her : er < n) (hec : ec < n) (hbr : br < n) (hbc : bc < n)
    (hzero : g er ec = 0) (hne : ¬(br = er ∧ bc = ec)) :
    PermGrid n (fun r c => if r = br ∧ c = bc then 0
      else if r = er ∧ c = ec then g br bc else g r c) := by
  have hne2 : ¬(er = br ∧ ec = bc) := fun hcon => hne ⟨hcon.1.symm, hcon.2.symm⟩
  intro v hv
  obtain ⟨⟨pr, pc⟩, ⟨⟨hprB, hpcB⟩, hpV⟩, hpU⟩ := hperm v hv
  dsimp only at hprB hpcB hpV
  by_cases hp1 : pr = br ∧ pc = bc
  · obtain ⟨rfl, rfl⟩ := hp1
    refine ⟨(er, ec), ⟨⟨her, hec⟩, ?_⟩, ?_⟩
    · dsimp only
      rw [if_neg hne2, if_pos ⟨rfl, rfl⟩]
      exact hpV
    · rintro ⟨r, c⟩ ⟨⟨hr, hc⟩, hval⟩
      dsimp only at hr hc hval
      by_cases h1 : r = pr ∧ c = pc
      · rw [if_pos h1] at hval
        exfalso
        have h2 := hpU (er, ec) ⟨⟨her, hec⟩, by dsimp only; rw [hzero, hval]⟩
        rw [Prod.mk.injEq] at h2
        exact hne2 h2
      · rw [if_neg h1] at hval
        by_cases h2 : r = er ∧ c = ec
        · rw [Prod.mk.injEq]
          exact h2
        · rw [if_neg h2] at hval
          exfalso
          have h3 := hpU (r, c) ⟨⟨hr, hc⟩, hval⟩
          rw [Prod.mk.injEq] at h3
          exact h1 h3
  · by_cases hp2 : pr = er ∧ pc = ec
    · obtain ⟨rfl, rfl⟩ := hp2
      have hv0 : v = 0 := by rw [← hpV, hzero]
      refine ⟨(br, bc), ⟨⟨hbr, hbc⟩, ?_⟩, ?_⟩
      · dsimp only
        rw [if_pos ⟨rfl, rfl⟩, hv0]
      · rintro ⟨r, c⟩ ⟨⟨hr, hc⟩, hval⟩
        dsimp only at hr hc hval
        by_cases h1 : r = br ∧ c = bc
        · rw [Prod.mk.injEq]
          exact h1
        · rw [if_neg h1] at hval
          by_cases h2 : r = pr ∧ c = pc
          · rw [if_pos h2] at hval
            exfalso
            have h3 := hpU (br, bc) ⟨⟨hbr, hbc⟩, hval⟩
            rw [Prod.mk.injEq] at h3
            exact hne h3
          · rw [if_neg h2] at hval
            exfalso
            have h3 := hpU (r, c) ⟨⟨hr, hc⟩, hval⟩
            rw [Prod.mk.injEq] at h3
            exact h2 h3
    · refine ⟨(pr, pc), ⟨⟨hprB, hpcB⟩, ?_⟩, ?_⟩
      · dsimp only
        rw [if_neg hp1, if_neg hp2]
        exact hpV
      · rintro ⟨r, c⟩ ⟨⟨hr, hc⟩, hval⟩
        dsimp only at hr hc hval
        by_cases h1 : r = br ∧ c = bc
        · rw [if_pos h1] at hval
          exfalso
          have h3 := hpU (er, ec) ⟨⟨her, hec⟩, by dsimp only; rw [hzero, hval]⟩
          rw [Prod.mk.injEq] at h3
          exact hp2 ⟨h3.1.symm, h3.2.symm⟩
        · rw [if_neg h1] at hval
          by_cases h2 : r = er ∧ c = ec
          · rw [if_pos h2] at hval
            exfalso
            have h3 := hpU (br, bc) ⟨⟨hbr, hbc⟩, hval⟩
            rw [Prod.mk.injEq] at h3
            exact hp1 ⟨h3.1.symm, h3.2.symm⟩
          · rw [if_neg h2] at hval
            have h3 := hpU (r, c) ⟨⟨hr, hc⟩, hval⟩
            exact h3

theorem coreInv_slideBlock {n : Nat} {s : BoardState} (h : CoreInv n s) {b : Block}
    (hv : b.value ≠ 0) (hbr : b.row < n) (hbc : b.col < n)
    (hgb : s.grid b.row b.col = b.value)
    (hne : ¬(b.row = s.emptyRow ∧ b.col = s.emptyCol)) :
    CoreInv n (slideBlock s b) := by
  obtain ⟨bs, hbs, hprops, hcover⟩ := h.blocksShape
  have hne2 : ¬(s.emptyRow = b.row ∧ s.emptyCol = b.col) :=
    fun hcon => hne ⟨hcon.1.symm, hcon.2.symm⟩
  have hgridEq : (slideBlock s b).grid = fun r c =>
      if r = b.row ∧ c = b.col then 0
      else if r = s.emptyRow ∧ c = s.emptyCol then s.grid b.row b.col else s.grid r c := by
    rw [slideBlock_grid, hgb]
  refine ⟨h.npos, h.size_eq, ?_, hbr, hbc, ?_, ?_, ?_⟩
  · rw [hgridEq]
    exact permGrid_swap h.perm h.empty_row h.empty_col hbr hbc h.empty_zero hne
  · show (slideBlock s b).grid b.row b.col = 0
    rw [hgridEq]
    dsimp only
    rw [if_pos ⟨rfl, rfl⟩]
  · intro r c hr hc
    rw [hgridEq]
    dsimp only
    by_cases h1 : r = b.row ∧ c = b.col
    · rw [if_pos h1]
      exact Nat.mul_pos h.npos h.npos
    · rw [if_neg h1]
      by_cases h2 : r = s.emptyRow ∧ c = s.emptyCol
      · rw [if_pos h2]
        exact h.rangeG _ _ hbr hbc
      · rw [if_neg h2]
        exact h.rangeG _ _ hr hc
  · refine ⟨bs.map (fun bb => if bb.value == b.value
        then { bb with row := s.emptyRow, col := s.emptyCol } else bb), ?_, ?_, ?_⟩
    · show s.blocks.map _ = _
      rw [hbs, List.map_append]
      congr 1
      have hcond : ¬(((⟨0, n - 1, n - 1⟩ : Block).value == b.value) = true) := by
        simp only [beq_iff_eq]
        exact fun hcon => hv hcon.symm
      simp only [List.map_cons, List.map_nil, if_neg hcond]
    · intro bb' hb'
      obtain ⟨bb, hbbmem, rfl⟩ := List.mem_map.mp hb'
      obtain ⟨hbv, hbrow, hbcol, hbg⟩ := hprops bb hbbmem
      by_cases hval : bb.value = b.value
      · have hcond : (bb.value == b.value) = true := beq_iff_eq.mpr hval
        rw [if_pos hcond]
        refine ⟨by simpa using hbv, h.empty_row, h.empty_col, ?_⟩
        show (slideBlock s b).grid s.emptyRow s.emptyCol = bb.value
        rw [hgridEq]
        dsimp only
        rw [if_neg hne2, if_pos ⟨rfl, rfl⟩, hgb, hval]
      · have hcond : (bb.value == b.value) = false := beq_eq_false_iff_ne.mpr hval
        rw [if_neg (by simp [hcond])]
        refine ⟨hbv, hbrow, hbcol, ?_⟩
        rw [hgridEq]
        dsimp only
        have h1 : ¬(bb.row = b.row ∧ bb.col = b.col) := by
          intro hcon
          apply hval
          rw [← hbg, hcon.1, hcon.2, hgb]
        have h2 : ¬(bb.row = s.emptyRow ∧ bb.col = s.emptyCol) := by
          intro hcon
          apply hbv
          rw [← hbg, hcon.1, hcon.2, h.empty_zero]
        rw [if_neg h1, if_neg h2]
        exact hbg
    · intro v hv0 hvn
      obtain ⟨bb, hbbmem, hbbval⟩ := hcover v hv0 hvn
      refine ⟨(fun bb => if bb.value == b.value
        then { bb with row := s.emptyRow, col := s.emptyCol } else bb) bb,
        List.mem_map_of_mem _ hbbmem, ?_⟩
      by_cases hval : bb.value = b.value
      · have hcond : (bb.value == b.value) = true := beq_iff_eq.mpr hval
        simp only [hcond, if_true]
        exact hbbval
      · have hcond : (bb.value == b.value) = false := beq_eq_false_iff_ne.mpr hval
        simp only [hcond, Bool.false_eq_true, if_false]
        exact hbbval

theorem blocksShape_mem {n : Nat} {s : BoardState} (h : CoreInv n s) {b : Block}
    (hmem : b ∈ s.blocks) (hv : b.value ≠ 0) :
    b.row < n ∧ b.col < n ∧ s.grid b.row b.col = b.value := by
  obtain ⟨bs, hbs, hprops, -⟩ := h.blocksShape
  rw [hbs] at hmem
  rcases List.mem_append.mp hmem with hmem | hmem
  · exact (hprops b hmem).2
  · rw [List.mem_singleton] at hmem
    subst hmem
    exact absurd rfl hv

theorem canMove_ne {s : BoardState} {r c : Nat} (hc : canMove s r c = true) :
    ¬(r = s.emptyRow ∧ c = s.emptyCol) := by
  rw [canMove_eq_manhattan] at hc
  rintro ⟨rfl, rfl⟩
  omega

theorem boardInv_moveBlock {n : Nat} {s : BoardState} (h : BoardInv n s) (v : Nat) (a : Bool) :
    BoardInv n (moveBlock s v a).2 := by
  cases hfind : getBlockByValue s v with
  | none => rw [moveBlock_not_found a hfind]; exact h
  | some b =>
    by_cases h0 : b.value = 0
    · rw [moveBlock_blank a hfind h0]; exact h
    · cases hc : canMove s b.row b.col with
      | false => rw [moveBlock_illegal a hfind hc]; exact h
      | true =>
        rw [moveBlock_accepted a h.anim h.queue hfind h0 hc]
        have hmem := getBlockByValue_mem hfind
        obtain ⟨hbr, hbc, hgb⟩ := blocksShape_mem h.toCoreInv hmem h0
        have hne := canMove_ne hc
        have hcore := coreInv_slideBlock h.toCoreInv h0 hbr hbc hgb hne
        show BoardInv n (moveApplied s b)
        have hsc : SameCore (slideBlock s b) (moveApplied s b) := ⟨rfl, rfl, rfl, rfl, rfl⟩
        exact ⟨coreInv_congr hsc hcore, h.anim, h.queue⟩

theorem getBlockByValue_of_inv {n : Nat} {s : BoardState} (h : CoreInv n s) {b : Block}
    (hv : b.value ≠ 0) (hbr : b.row < n) (hbc : b.col < n)
    (hgb : s.grid b.row b.col = b.value) :
    getBlockByValue s b.value = some b := by
  obtain ⟨bs, hbs, hprops, hcover⟩ := h.blocksShape
  have hvn : b.value < n * n := hgb ▸ h.rangeG _ _ hbr hbc
  obtain ⟨bb, hbbmem, hbbval⟩ := hcover b.value (Nat.pos_of_ne_zero hv) hvn
  have hs : (s.blocks.find? (fun bb => bb.value == b.value)).isSome := by
    rw [List.find?_isSome]
    exact ⟨bb, by rw [hbs]; exact List.mem_append_left _ hbbmem, beq_iff_eq.mpr hbbval⟩
  obtain ⟨b0, hb0⟩ := Option.isSome_iff_exists.mp hs
  have hb0val : b0.value = b.value := by simpa using List.find?_some hb0
  have hb0mem : b0 ∈ s.blocks := List.mem_of_find?_eq_some hb0
  have hb0v : b0.value ≠ 0 := by rw [hb0val]; exact hv
  obtain ⟨hb0r, hb0c, hb0g⟩ := blocksShape_mem h hb0mem hb0v
  obtain ⟨p, -, hpU⟩ := h.perm b.value hvn
  have h1 := hpU (b0.row, b0.col) ⟨⟨hb0r, hb0c⟩, by dsimp only; rw [hb0g, hb0val]⟩
  have h2 := hpU (b.row, b.col) ⟨⟨hbr, hbc⟩, hgb⟩
  have h3 : b0 = b := by
    have h4 := h1.trans h2.symm
    rw [Prod.mk.injEq] at h4
    cases b0 with
    | mk v0 r0 c0 =>
      cases b with
      | mk v1 r1 c1 => simp_all
  rw [h3] at hb0
  exact hb0

/-! ## Lemmas: every slide can be undone by a legal move -/

theorem pos_eq_of_grid {n : Nat} {s : BoardState} (h : CoreInv n s) {b : Block}
    (hmem : b ∈ s.blocks) (h0 : b.value ≠ 0) {r c : Nat} (hr : r < n) (hc : c < n)
    (hg : s.grid r c = b.value) : b.row = r ∧ b.col = c := by
  obtain ⟨hbr, hbc, hbg⟩ := blocksShape_mem h hmem h0
  have hvn : b.value < n * n := hbg ▸ h.rangeG _ _ hbr hbc
  obtain ⟨p, -, hpU⟩ := h.perm b.value hvn
  have e1 := hpU (b.row, b.col) ⟨⟨hbr, hbc⟩, hbg⟩
  have e2 := hpU (r, c) ⟨⟨hr, hc⟩, hg⟩
  have e3 := e1.trans e2.symm
  rw [Prod.mk.injEq] at e3
  exact e3

theorem grid_undo {s : BoardState} {b : Block}
    (hz : s.grid s.emptyRow s.emptyCol = 0)
    (hgb : s.grid b.row b.col = b.value) :
    (slideBlock (slideBlock s b) ⟨b.value, s.emptyRow, s.emptyCol⟩).grid = s.grid := by
  funext r c
  simp only [slideBlock, update2]
  by_cases h1 : r = s.emptyRow ∧ c = s.emptyCol
  · rw [if_pos h1, h1.1, h1.2]
    exact hz.symm
  · rw [if_neg h1]
    by_cases h2 : r = b.row ∧ c = b.col
    · rw [if_pos h2, h2.1, h2.2, hgb]
    · rw [if_neg h2, if_neg h2, if_neg h1]

theorem blocksUndo {n : Nat} {s : BoardState} (h : CoreInv n s) {b : Block}
    (hv : b.value ≠ 0) (hbr : b.row < n) (hbc : b.col < n)
    (hgb : s.grid b.row b.col = b.value) :
    ((s.blocks.map fun bb =>
        if bb.value == b.value then { bb with row := s.emptyRow, col := s.emptyCol } else bb).map
      fun bb => if bb.value == b.value then { bb with row := b.row, col := b.col } else bb)
      = s.blocks := by
  rw [List.map_map]
  have hid : ∀ bb ∈ s.blocks,
      ((fun bb : Block => if bb.value == b.value
          then { bb with row := b.row, col := b.col } else bb) ∘
        (fun bb : Block => if bb.value == b.value
          then { bb with row := s.emptyRow, col := s.emptyCol } else bb)) bb = bb := by
    intro bb hmem
    obtain ⟨bv, br0, bc0⟩ := bb
    by_cases hval : bv = b.value
    · have h0 : (⟨bv, br0, bc0⟩ : Block).value ≠ 0 := by
        show bv ≠ 0
        rw [hval]
        exact hv
      have hg : s.grid b.row b.col = (⟨bv, br0, bc0⟩ : Block).value := by
        show s.grid b.row b.col = bv
        rw [hgb, hval]
      obtain ⟨hprow, hpcol⟩ := pos_eq_of_grid h hmem h0 hbr hbc hg
      simp only at hprow hpcol
      simp only [Function.comp_apply]
      rw [if_pos (beq_iff_eq.mpr hval)]
      dsimp only
      rw [if_pos (beq_iff_eq.mpr hval)]
      simp [hprow, hpcol]
    · simp only [Function.comp_apply]
      rw [if_neg (by simp [hval]), if_neg (by simp [hval])]
  rw [List.map_congr_left hid]
  simp

theorem solvable_slideBlock {n : Nat} {s : BoardState} (h : CoreInv n s)
    (ha : s.isAnimating = false) (hq : s.moveQueue = []) {b : Block}
    (hv : b.value ≠ 0) (hbr : b.row < n) (hbc : b.col < n)
    (hgb : s.grid b.row b.col = b.value)
    (hadj : canMove s b.row b.col = true)
    (hsolv : Solvable s) : Solvable (slideBlock s b) := by
  have hne : ¬(b.row = s.emptyRow ∧ b.col = s.emptyCol) := canMove_ne hadj
  have hcore : CoreInv n (slideBlock s b) := coreInv_slideBlock h hv hbr hbc hgb hne
  have hg1 : (slideBlock s b).grid (⟨b.value, s.emptyRow, s.emptyCol⟩ : Block).row
      (⟨b.value, s.emptyRow, s.emptyCol⟩ : Block).col
      = (⟨b.value, s.emptyRow, s.emptyCol⟩ : Block).value := by
    rw [slideBlock_grid]
    dsimp only
    rw [if_neg (fun hcon => hne ⟨hcon.1.symm, hcon.2.symm⟩), if_pos ⟨rfl, rfl⟩]
  have hfind : getBlockByValue (slideBlock s b)
      (⟨b.value, s.emptyRow, s.emptyCol⟩ : Block).value
      = some ⟨b.value, s.emptyRow, s.emptyCol⟩ :=
    getBlockByValue_of_inv hcore hv h.empty_row h.empty_col hg1
  have hcm : canMove (slideBlock s b) (⟨b.value, s.emptyRow, s.emptyCol⟩ : Block).row
      (⟨b.value, s.emptyRow, s.emptyCol⟩ : Block).col = true := by
    rw [canMove_eq_manhattan] at hadj ⊢
    show ((s.emptyRow : Int) - (b.row : Int)).natAbs
        + ((s.emptyCol : Int) - (b.col : Int)).natAbs = 1
    omega
  have haccept := moveBlock_accepted true (show (slideBlock s b).isAnimating = false from ha)
    (show (slideBlock s b).moveQueue = [] from hq) hfind hv hcm
  have hsc : SameCore (moveApplied (slideBlock s b) ⟨b.value, s.emptyRow, s.emptyCol⟩) s := by
    refine ⟨rfl, ?_, rfl, rfl, ?_⟩
    · show (slideBlock (slideBlock s b) ⟨b.value, s.emptyRow, s.emptyCol⟩).grid = s.grid
      exact grid_undo h.empty_zero hgb
    · show (slideBlock (slideBlock s b) ⟨b.value, s.emptyRow, s.emptyCol⟩).blocks = s.blocks
      exact blocksUndo h hv hbr hbc hgb
  have hsolv1 : Solvable (moveApplied (slideBlock s b) ⟨b.value, s.emptyRow, s.emptyCol⟩) :=
    solvable_congr hsc ⟨ha, hq⟩ ⟨ha, hq⟩ hsolv
  obtain ⟨vs, hw⟩ := hsolv1
  refine ⟨b.value :: vs, ?_⟩
  show checkWin (applyMoves (moveBlock (slideBlock s b) b.value true).2 vs) = true
  rw [haccept]
  exact hw

theorem solvable_moveBlock {n : Nat} {s : BoardState} (h : BoardInv n s)
    (hsolv : Solvable s) (v : Nat) (a : Bool) : Solvable (moveBlock s v a).2 := by
  cases hfind : getBlockByValue s v with
  | none => rw [moveBlock_not_found a hfind]; exact hsolv
  | some b =>
    by_cases h0 : b.value = 0
    · rw [moveBlock_blank a hfind h0]; exact hsolv
    · cases hc : canMove s b.row b.col with
      | false => rw [moveBlock_illegal a hfind hc]; exact hsolv
      | true =>
        rw [moveBlock_accepted a h.anim h.queue hfind h0 hc]
        show Solvable (moveApplied s b)
        obtain ⟨hbr, hbc, hgb⟩ := blocksShape_mem h.toCoreInv (getBlockByValue_mem hfind) h0
        have hs := solvable_slideBlock h.toCoreInv h.anim h.queue h0 hbr hbc hgb hc hsolv
        have hsc : SameCore (moveApplied s b) (slideBlock s b) := ⟨rfl, rfl, rfl, rfl, rfl⟩
        exact solvable_congr hsc ⟨h.anim, h.queue⟩ ⟨h.anim, h.queue⟩ hs

/-! ## Lemmas: the shuffle loop preserves the invariant and solvability -/

theorem possibleMoves_cases {s : BoardState} {last : Option Dir} {mv : Cand}
    (hmem : mv ∈ possibleMoves s last) :
    (s.emptyRow > 0 ∧ mv.row = s.emptyRow - 1 ∧ mv.col = s.emptyCol)
    ∨ (s.emptyRow < s.size - 1 ∧ mv.row = s.emptyRow + 1 ∧ mv.col = s.emptyCol)
    ∨ (s.emptyCol > 0 ∧ mv.row = s.emptyRow ∧ mv.col = s.emptyCol - 1)
    ∨ (s.emptyCol < s.size - 1 ∧ mv.row = s.emptyRow ∧ mv.col = s.emptyCol + 1) := by
  simp only [possibleMoves, List.mem_append] at hmem
  rcases hmem with ((h | h) | h) | h
  · split_ifs at h with hc
    · rw [List.mem_singleton] at h
      subst h
      exact Or.inl ⟨hc.1, rfl, rfl⟩
    · exact absurd h (List.not_mem_nil _)
  · split_ifs at h with hc
    · rw [List.mem_singleton] at h
      subst h
      exact Or.inr (Or.inl ⟨hc.1, rfl, rfl⟩)
    · exact absurd h (List.not_mem_nil _)
  · split_ifs at h with hc
    · rw [List.mem_singleton] at h
      subst h
      exact Or.inr (Or.inr (Or.inl ⟨hc.1, rfl, rfl⟩))
    · exact absurd h (List.not_mem_nil _)
  · split_ifs at h with hc
    · rw [List.mem_singleton] at h
      subst h
      exact Or.inr (Or.inr (Or.inr ⟨hc.1, rfl, rfl⟩))
    · exact absurd h (List.not_mem_nil _)

theorem possibleMoves_props {n : Nat} {s : BoardState} (h : CoreInv n s)
    {last : Option Dir} {mv : Cand} (hmem : mv ∈ possibleMoves s last) :
    mv.row < n ∧ mv.col < n ∧ canMove s mv.row mv.col = true := by
  have hsz := h.size_eq
  have her := h.empty_row
  have hec := h.empty_col
  rcases possibleMoves_cases hmem with ⟨hg, hr, hc⟩ | ⟨hg, hr, hc⟩ | ⟨hg, hr, hc⟩ | ⟨hg, hr, hc⟩
  · exact ⟨by omega, by omega, (canMove_eq_manhattan s mv.row mv.col).mpr (by rw [hr, hc]; omega)⟩
  · rw [hsz] at hg
    exact ⟨by omega, by omega, (canMove_eq_manhattan s mv.row mv.col).mpr (by rw [hr, hc]; omega)⟩
  · exact ⟨by omega, by omega, (canMove_eq_manhattan s mv.row mv.col).mpr (by rw [hr, hc]; omega)⟩
  · rw [hsz] at hg
    exact ⟨by omega, by omega, (canMove_eq_manhattan s mv.row mv.col).mpr (by rw [hr, hc]; omega)⟩

theorem doSlide_eq_slideBlock {n : Nat} {s : BoardState} (h : CoreInv n s)
    {r c : Nat} (hr : r < n) (hc : c < n)
    (hne : ¬(r = s.emptyRow ∧ c = s.emptyCol)) :
    ∃ b, getBlock s r c = some b ∧ b.value ≠ 0 ∧ b.row = r ∧ b.col = c
      ∧ s.grid r c = b.value ∧ doSlide s r c = slideBlock s b := by
  obtain ⟨bs, hbs, hprops, hcover⟩ := h.blocksShape
  have hgz : s.grid r c ≠ 0 := by
    intro hcon
    obtain ⟨p, -, hpU⟩ := h.perm 0 (Nat.mul_pos h.npos h.npos)
    have e1 := hpU (r, c) ⟨⟨hr, hc⟩, hcon⟩
    have e2 := hpU (s.emptyRow, s.emptyCol) ⟨⟨h.empty_row, h.empty_col⟩, h.empty_zero⟩
    have e3 := e1.trans e2.symm
    rw [Prod.mk.injEq] at e3
    exact hne e3
  have hvn : s.grid r c < n * n := h.rangeG _ _ hr hc
  obtain ⟨bb, hbbmem, hbbval⟩ := hcover (s.grid r c) (Nat.pos_of_ne_zero hgz) hvn
  obtain ⟨hbbv, hbbr, hbbc, hbbg⟩ := hprops bb hbbmem
  obtain ⟨hposr, hposc⟩ := pos_eq_of_grid h
    (by rw [hbs]; exact List.mem_append_left _ hbbmem) hbbv hr hc (by rw [hbbval])
  have hsbs : (bs.find? (fun b => b.row == r && b.col == c)).isSome := by
    rw [List.find?_isSome]
    exact ⟨bb, hbbmem, by simp [hposr, hposc]⟩
  obtain ⟨b0, hb0⟩ := Option.isSome_iff_exists.mp hsbs
  have hfind : getBlock s r c = some b0 := by
    show s.blocks.find? _ = some b0
    rw [hbs, List.find?_append, hb0]
    rfl
  have hb0p := List.find?_some hb0
  simp only [Bool.and_eq_true, beq_iff_eq] at hb0p
  have hb0mem : b0 ∈ bs := List.mem_of_find?_eq_some hb0
  obtain ⟨hb0v, -, -, hb0g⟩ := hprops b0 hb0mem
  have hgrc : s.grid r c = b0.value := by
    rw [hb0p.1, hb0p.2] at hb0g
    exact hb0g
  refine ⟨b0, hfind, hb0v, hb0p.1, hb0p.2, hgrc, ?_⟩
  unfold doSlide
  rw [hfind]
  rfl

theorem shuffleAux_inv {n : Nat} (ch : Nat → Nat) :
    ∀ (k : Nat) (s : BoardState) (last : Option Dir) (i : Nat),
      CoreInv n s → s.moveQueue = [] →
      Solvable { s with isAnimating := false } →
      CoreInv n (shuffleAux s last ch i k)
        ∧ (shuffleAux s last ch i k).moveQueue = []
        ∧ Solvable { shuffleAux s last ch i k with isAnimating := false } := by
  intro k
  induction k with
  | zero =>
    intro s last i h hq hsolv
    exact ⟨h, hq, hsolv⟩
  | succ k ih =>
    intro s last i h hq hsolv
    rcases hstep : (possibleMoves s last).get? (ch i) with - | mv
    · have heq : shuffleStep s last (ch i) = (s, last) := by
        unfold shuffleStep
        rw [hstep]
      simp only [shuffleAux, heq]
      exact ih s last (i + 1) h hq hsolv
    · have hmv : mv ∈ possibleMoves s last := List.get?_mem hstep
      obtain ⟨hrB, hcB, hcm⟩ := possibleMoves_props h hmv
      have hne : ¬(mv.row = s.emptyRow ∧ mv.col = s.emptyCol) := canMove_ne hcm
      obtain ⟨b, hfind, hbv, hbr, hbc, hbg, hds⟩ := doSlide_eq_slideBlock h hrB hcB hne
      have heq : shuffleStep s last (ch i) = (slideBlock s b, some mv.dir) := by
        unfold shuffleStep
        rw [hstep]
        dsimp only
        rw [hds]
      simp only [shuffleAux, heq]
      have hbrn : b.row < n := by rw [hbr]; exact hrB
      have hbcn : b.col < n := by rw [hbc]; exact hcB
      have hgb : s.grid b.row b.col = b.value := by rw [hbr, hbc]; exact hbg
      have hneb : ¬(b.row = s.emptyRow ∧ b.col = s.emptyCol) := by
        rw [hbr, hbc]; exact hne
      refine ih _ _ _ (coreInv_slideBlock h hbv hbrn hbcn hgb hneb) hq ?_
      have hscA : SameCore s ({ s with isAnimating := false } : BoardState) :=
        ⟨rfl, rfl, rfl, rfl, rfl⟩
      have hcoreA : CoreInv n ({ s with isAnimating := false } : BoardState) :=
        coreInv_congr hscA h
      have hcmA : canMove ({ s with isAnimating := false } : BoardState) b.row b.col = true := by
        rw [canMove_eq_manhattan]
        show ((b.row : Int) - (s.emptyRow : Int)).natAbs
            + ((b.col : Int) - (s.emptyCol : Int)).natAbs = 1
        rw [canMove_eq_manhattan] at hcm
        rw [hbr, hbc]
        exact hcm
      have hs1 : Solvable (slideBlock ({ s with isAnimating := false } : BoardState) b) :=
        solvable_slideBlock hcoreA rfl hq hbv hbrn hbcn hgb hcmA hsolv
      have hsc : SameCore ({ slideBlock s b with isAnimating := false } : BoardState)
          (slideBlock ({ s with isAnimating := false } : BoardState) b) :=
        ⟨rfl, rfl, rfl, rfl, rfl⟩
      exact solvable_congr hsc ⟨rfl, hq⟩ ⟨rfl, hq⟩ hs1

theorem boardInv_shuffle {n : Nat} {s : BoardState} (h : BoardInv n s) (hsolv : Solvable s)
    (mc : Nat) (ch : Nat → Nat) :
    BoardInv n (shuffle s mc ch) ∧ Solvable (shuffle s mc ch) := by
  have hsc0 : SameCore s ({ s with isAnimating := true } : BoardState) :=
    ⟨rfl, rfl, rfl, rfl, rfl⟩
  have h0 : CoreInv n ({ s with isAnimating := true } : BoardState) :=
    coreInv_congr hsc0 h.toCoreInv
  have hq0 : ({ s with isAnimating := true } : BoardState).moveQueue = [] := h.queue
  have hsolv0 : Solvable ({ ({ s with isAnimating := true } : BoardState) with
      isAnimating := false } : BoardState) := by
    have hsc : SameCore ({ ({ s with isAnimating := true } : BoardState) with
        isAnimating := false } : BoardState) s := ⟨rfl, rfl, rfl, rfl, rfl⟩
    exact solvable_congr hsc ⟨rfl, h.queue⟩ ⟨h.anim, h.queue⟩ hsolv
  obtain ⟨hc1, hq1, hsolv1⟩ := shuffleAux_inv ch
    (if mc = 0 then (if s.size = 4 then 80 else 150) else mc)
    ({ s with isAnimating := true } : BoardState) none 0 h0 hq0 hsolv0
  have hsc2 : SameCore (shuffleAux ({ s with isAnimating := true } : BoardState) none ch 0
      (if mc = 0 then (if s.size = 4 then 80 else 150) else mc)) (shuffle s mc ch) :=
    ⟨rfl, rfl, rfl, rfl, rfl⟩
  constructor
  · refine ⟨coreInv_congr hsc2 hc1, rfl, ?_⟩
    exact hq1
  · have hsc3 : SameCore (shuffle s mc ch)
        ({ shuffleAux ({ s with isAnimating := true } : BoardState) none ch 0
          (if mc = 0 then (if s.size = 4 then 80 else 150) else mc)
          with isAnimating := false } : BoardState) := ⟨rfl, rfl, rfl, rfl, rfl⟩
    refine solvable_congr hsc3 ⟨rfl, ?_⟩ ⟨rfl, hq1⟩ hsolv1
    exact hq1

theorem checkWin_mkBoard {n : Nat} (hn : 1 ≤ n) : checkWin (mkBoard n) = true := by
  simp only [checkWin, List.all_eq_true, List.mem_range]
  intro r hr c hc
  have hr2 : r < n := hr
  have hc2 : c < n := hc
  show (if r = n - 1 ∧ c = n - 1 then mkGrid n r c == 0
    else mkGrid n r c == r * n + c + 1) = true
  by_cases hlast : r = n - 1 ∧ c = n - 1
  · rw [if_pos hlast]
    simp only [beq_iff_eq]
    rw [mkGrid_in_bounds hr2 hc2, hlast.1, hlast.2]
    exact last_cell_val hn
  · rw [if_neg hlast]
    simp only [beq_iff_eq]
    rw [mkGrid_in_bounds hr2 hc2]
    exact solvedVal_eq hr2 hc2 (not_and_or.mp hlast)

theorem resetBoard_eq {n : Nat} {s : BoardState} (hsz : s.size = n)
    (ha : s.isAnimating = false) (hq : s.moveQueue = []) :
    resetBoard s = mkBoard n := by
  cases s with
  | mk size grid blocks emptyRow emptyCol moveCount moveHistory isAnimating moveQueue =>
    simp only at hsz ha hq
    subst hsz; subst ha; subst hq
    rfl

/-- Master soundness result: every reachable board satisfies the full
invariant and is solvable. -/
theorem reachable_inv {n : Nat} {s : BoardState} (h : Reachable n s) :
    BoardInv n s ∧ Solvable s := by
  induction h with
  | init hn => exact ⟨boardInv_mkBoard hn, [], checkWin_mkBoard hn⟩
  | move v a hr ih => exact ⟨boardInv_moveBlock ih.1 v a, solvable_moveBlock ih.1 ih.2 v a⟩
  | shuf mc ch hr ih => exact boardInv_shuffle ih.1 ih.2 mc ch
  | reset hr ih =>
    rw [resetBoard_eq ih.1.size_eq ih.1.anim ih.1.queue]
    exact ⟨boardInv_mkBoard ih.1.npos, [], checkWin_mkBoard ih.1.npos⟩

/-! ## Lemmas: the pending-move queue -/

theorem moveBlockStart_queued {s : BoardState} {v : Nat} {a : Bool}
    (h : (moveBlockStart s v a).1 = .queued) :
    (moveBlockStart s v a).2 = { s with moveQueue := s.moveQueue ++ [(v, a)] } := by
  unfold moveBlockStart at h ⊢
  cases hf : getBlockByValue s v with
  | none => rw [hf] at h; simp at h
  | some b =>
    rw [hf] at h
    dsimp only at h ⊢
    split_ifs at h ⊢ <;> simp_all

theorem moveBlockStart_started_queue {s : BoardState} {v : Nat} {a : Bool}
    (h : (moveBlockStart s v a).1 = .started) :
    (moveBlockStart s v a).2.moveQueue = s.moveQueue ∧ s.isAnimating = false := by
  unfold moveBlockStart at h ⊢
  cases hf : getBlockByValue s v with
  | none => rw [hf] at h; simp at h
  | some b =>
    rw [hf] at h
    dsimp only at h ⊢
    split_ifs at h ⊢ <;> simp_all

theorem processOnce_queue_congr (s : BoardState) (q : List (Nat × Bool)) (v : Nat) (a : Bool)
    (ha : s.isAnimating = false) :
    processOnce { s with moveQueue := q } v a = { processOnce s v a with moveQueue := q } := by
  unfold processOnce moveBlockStart
  cases hfind : getBlockByValue s v with
  | none =>
    have hf2 : getBlockByValue { s with moveQueue := q } v = none := hfind
    rw [hf2]
  | some b =>
    have hf2 : getBlockByValue { s with moveQueue := q } v = some b := hfind
    rw [hf2]
    dsimp only
    by_cases h0 : (b.value == 0) = true
    · rw [if_pos h0, if_pos h0]
    · rw [if_neg h0, if_neg h0]
      by_cases hc : (!canMove s b.row b.col) = true
      · have hc2 : (!canMove { s with moveQueue := q } b.row b.col) = true := hc
        rw [if_pos hc2, if_pos hc]
      · have hc2 : ¬((!canMove { s with moveQueue := q } b.row b.col) = true) := hc
        rw [if_neg hc2, if_neg hc]
        have ha3 : ¬(s.isAnimating = true) := by rw [ha]; simp
        have ha2 : ¬(({ s with moveQueue := q } : BoardState).isAnimating = true) := ha3
        rw [if_neg ha2, if_neg ha3]
        rfl

theorem processOnce_quiet (s : BoardState) (v : Nat) (a : Bool) (ha : s.isAnimating = false) :
    (processOnce s v a).isAnimating = false ∧ (processOnce s v a).moveQueue = s.moveQueue := by
  unfold processOnce moveBlockStart
  cases hfind : getBlockByValue s v with
  | none => exact ⟨ha, rfl⟩
  | some b =>
    dsimp only
    by_cases h0 : (b.value == 0) = true
    · rw [if_pos h0]; exact ⟨ha, rfl⟩
    · rw [if_neg h0]
      by_cases hc : (!canMove s b.row b.col) = true
      · rw [if_pos hc]; exact ⟨ha, rfl⟩
      · rw [if_neg hc]
        have ha3 : ¬(s.isAnimating = true) := by rw [ha]; simp
        rw [if_neg ha3]
        exact ⟨rfl, rfl⟩

theorem moveBlock_snd_processOnce (s : BoardState) (v : Nat) (a : Bool)
    (ha : s.isAnimating = false) (hq : s.moveQueue = []) :
    (moveBlock s v a).2 = processOnce s v a := by
  unfold moveBlock processOnce
  rcases hmb : moveBlockStart s v a with ⟨o, s1⟩
  cases o with
  | rejected => rfl
  | queued => rfl
  | started =>
    show processQueue (moveBlockSettle s1 v s.emptyRow s.emptyCol) = _
    have hstart : (moveBlockStart s v a).1 = MoveOutcome.started := by rw [hmb]
    have hq1 : (moveBlockSettle s1 v s.emptyRow s.emptyCol).moveQueue = [] := by
      show s1.moveQueue = []
      have h2 := (moveBlockStart_started_queue hstart).1
      rw [hmb] at h2
      rw [h2, hq]
    unfold processQueue
    rw [hq1]
    rfl

theorem queue_update_self {s : BoardState} {q : List (Nat × Bool)} (h : s.moveQueue = q) :
    ({ s with moveQueue := q } : BoardState) = s := by
  cases s with
  | mk size grid blocks emptyRow emptyCol moveCount moveHistory isAnimating moveQueue =>
    simp only at h
    subst h
    rfl

theorem queuedRun_eq_sequentialRun {s : BoardState} {m1 m2 m3 : Nat}
    (ha : s.isAnimating = false) (hq : s.moveQueue = [])
    (h1 : (moveBlockStart s m1 true).1 = .started)
    (h2 : (moveBlockStart (moveBlockStart s m1 true).2 m2 true).1 = .queued)
    (h3 : (moveBlockStart (moveBlockStart (moveBlockStart s m1 true).2 m2 true).2 m3 true).1
        = .queued) :
    queuedRun s m1 m2 m3 = sequentialRun s m1 m2 m3 := by
  obtain ⟨hs1q, -⟩ := moveBlockStart_started_queue h1
  have hq1 : (moveBlockStart s m1 true).2.moveQueue = [] := by rw [hs1q, hq]
  have hpair1 : moveBlockStart s m1 true
      = (MoveOutcome.started, (moveBlockStart s m1 true).2) := by
    rw [← h1]
  have hs2 := moveBlockStart_queued h2
  have hs3 := moveBlockStart_queued h3
  have hs2' : (moveBlockStart (moveBlockStart s m1 true).2 m2 true).2
      = { (moveBlockStart s m1 true).2 with moveQueue := [(m2, true)] } := by
    rw [hs2, hq1]
    rfl
  have hs3' : (moveBlockStart (moveBlockStart (moveBlockStart s m1 true).2 m2 true).2 m3 true).2
      = { (moveBlockStart s m1 true).2 with moveQueue := [(m2, true), (m3, true)] } := by
    rw [hs3, hs2']
    rfl
  have hql : queuedRun s m1 m2 m3
      = processQueue (moveBlockSettle
          { (moveBlockStart s m1 true).2 with moveQueue := [(m2, true), (m3, true)] }
          m1 s.emptyRow s.emptyCol) := by
    unfold queuedRun
    rw [hpair1]
    dsimp only
    rw [hs3']
  have hsettle : moveBlockSettle
        { (moveBlockStart s m1 true).2 with moveQueue := [(m2, true), (m3, true)] }
        m1 s.emptyRow s.emptyCol
      = { moveBlockSettle (moveBlockStart s m1 true).2 m1 s.emptyRow s.emptyCol
          with moveQueue := [(m2, true), (m3, true)] } := rfl
  have hBanim : (moveBlockSettle (moveBlockStart s m1 true).2 m1
      s.emptyRow s.emptyCol).isAnimating = false := rfl
  have hBq : (moveBlockSettle (moveBlockStart s m1 true).2 m1
      s.emptyRow s.emptyCol).moveQueue = [] := hq1
  have h2anim := (processOnce_quiet (moveBlockSettle (moveBlockStart s m1 true).2 m1
      s.emptyRow s.emptyCol) m2 true hBanim).1
  have h2q := ((processOnce_quiet (moveBlockSettle (moveBlockStart s m1 true).2 m1
      s.emptyRow s.emptyCol) m2 true hBanim).2).trans hBq
  have h3q := ((processOnce_quiet (processOnce (moveBlockSettle
      (moveBlockStart s m1 true).2 m1 s.emptyRow s.emptyCol) m2 true) m3 true h2anim).2).trans h2q
  have hdrain : processQueue { moveBlockSettle (moveBlockStart s m1 true).2 m1
        s.emptyRow s.emptyCol with moveQueue := [(m2, true), (m3, true)] }
      = processOnce (processOnce (moveBlockSettle (moveBlockStart s m1 true).2 m1
          s.emptyRow s.emptyCol) m2 true) m3 true := by
    calc processQueue { moveBlockSettle (moveBlockStart s m1 true).2 m1
          s.emptyRow s.emptyCol with moveQueue := [(m2, true), (m3, true)] }
        = drainFuel 1 (processOnce { moveBlockSettle (moveBlockStart s m1 true).2 m1
            s.emptyRow s.emptyCol with moveQueue := [(m3, true)] } m2 true) := rfl
      _ = drainFuel 1 ({ processOnce (moveBlockSettle (moveBlockStart s m1 true).2 m1
            s.emptyRow s.emptyCol) m2 true with moveQueue := [(m3, true)] }) := by
          rw [processOnce_queue_congr (moveBlockSettle (moveBlockStart s m1 true).2 m1
            s.emptyRow s.emptyCol) [(m3, true)] m2 true hBanim]
      _ = processOnce { processOnce (moveBlockSettle (moveBlockStart s m1 true).2 m1
            s.emptyRow s.emptyCol) m2 true with moveQueue := [] } m3 true := rfl
      _ = { processOnce (processOnce (moveBlockSettle (moveBlockStart s m1 true).2 m1
            s.emptyRow s.emptyCol) m2 true) m3 true with moveQueue := [] } := by
          rw [processOnce_queue_congr (processOnce (moveBlockSettle (moveBlockStart s m1 true).2
            m1 s.emptyRow s.emptyCol) m2 true) [] m3 true h2anim]
      _ = processOnce (processOnce (moveBlockSettle (moveBlockStart s m1 true).2 m1
            s.emptyRow s.emptyCol) m2 true) m3 true := queue_update_self h3q
  have hseq1 : (moveBlock s m1 true).2
      = moveBlockSettle (moveBlockStart s m1 true).2 m1 s.emptyRow s.emptyCol := by
    unfold moveBlock
    rw [hpair1]
    dsimp only
    unfold processQueue
    rw [hBq]
    rfl
  have hseq2 := moveBlock_snd_processOnce (moveBlockSettle (moveBlockStart s m1 true).2 m1
      s.emptyRow s.emptyCol) m2 true hBanim hBq
  have hseq3 := moveBlock_snd_processOnce (processOnce (moveBlockSettle
      (moveBlockStart s m1 true).2 m1 s.emptyRow s.emptyCol) m2 true) m3 true h2anim h2q
  show queuedRun s m1 m2 m3 = (moveBlock (moveBlock (moveBlock s m1 true).2 m2 true).2 m3 true).2
  rw [hql, hsettle, hdrain, hseq1, hseq2, hseq3]

/-! ## Claim theorems -/

/-- C1: for every reachable board state (construction, settled `moveBlock`
calls, `shuffle`, `reset`), the grid is a permutation of `0 .. N*N-1` -
each value appears in exactly one cell - and the tracked blank position
satisfies `grid[emptyRow][emptyCol] = 0`. -/
theorem C1_reachable_perm_and_blank (n : Nat) (s : BoardState) (h : Reachable n s) :
    (∀ v, v < n * n → ∃! p : Nat × Nat, (p.1 < n ∧ p.2 < n) ∧ s.grid p.1 p.2 = v)
      ∧ s.emptyRow < n ∧ s.emptyCol < n ∧ s.grid s.emptyRow s.emptyCol = 0 := by
  obtain ⟨hinv, -⟩ := reachable_inv h
  exact ⟨hinv.perm, hinv.empty_row, hinv.empty_col, hinv.empty_zero⟩

/-- C1 witness: the freshly constructed 4x4 board. -/
theorem C1_witness :
    (∀ v, v < 4 * 4 → ∃! p : Nat × Nat, (p.1 < 4 ∧ p.2 < 4) ∧ (mkBoard 4).grid p.1 p.2 = v)
      ∧ (mkBoard 4).emptyRow < 4 ∧ (mkBoard 4).emptyCol < 4
      ∧ (mkBoard 4).grid (mkBoard 4).emptyRow (mkBoard 4).emptyCol = 0 :=
  C1_reachable_perm_and_blank 4 (mkBoard 4) (Reachable.init (by decide))

/-- C2 counterexample: on a solved 4x4 board, request tile 15 (which
starts animating), then tile 15 again and tile 11 while the animation is
in flight.  The re-click of the in-flight tile is dropped (its stale
`row`/`col` equal the new blank cell, so the admission check fails), so
the queued run applies moves 15 and 11 while the strict sequential run
applies 15, 15-back and rejects 11 - the final grids differ at cell
(2,2).  This refutes the claim that the final grid always equals
sequential application. -/
theorem C2_counterexample :
    (moveBlockStart (mkBoard 4) 15 true).1 = MoveOutcome.started
      ∧ (queuedRun (mkBoard 4) 15 15 11).grid 2 2
        ≠ (sequentialRun (mkBoard 4) 15 15 11).grid 2 2 := by
  decide

/-- C2 (amended): requests arriving while an animation is in flight are
queued in FIFO order, and - provided each such request passes the
admission check at the moment it is issued (the in-flight tile's
`row`/`col` are not yet updated when the check runs; requests failing
the check are dropped, not queued) - the final state after the queue
drains equals the strict sequential application of the three requests. -/
theorem C2_amended (s : BoardState) (m1 m2 m3 : Nat)
    (ha : s.isAnimating = false) (hq : s.moveQueue = [])
    (h1 : (moveBlockStart s m1 true).1 = MoveOutcome.started)
    (h2 : (moveBlockStart (moveBlockStart s m1 true).2 m2 true).1 = MoveOutcome.queued)
    (h3 : (moveBlockStart (moveBlockStart (moveBlockStart s m1 true).2 m2 true).2 m3 true).1
        = MoveOutcome.queued) :
    (moveBlockStart (moveBlockStart (moveBlockStart s m1 true).2 m2 true).2 m3 true).2.moveQueue
        = [(m2, true), (m3, true)]
      ∧ queuedRun s m1 m2 m3 = sequentialRun s m1 m2 m3 := by
  obtain ⟨hs1q, -⟩ := moveBlockStart_started_queue h1
  have hq1 : (moveBlockStart s m1 true).2.moveQueue = [] := by rw [hs1q, hq]
  have hs2 := moveBlockStart_queued h2
  have hs3 := moveBlockStart_queued h3
  constructor
  · rw [hs3]
    dsimp only
    rw [hs2]
    dsimp only
    rw [hq1]
    rfl
  · exact queuedRun_eq_sequentialRun ha hq h1 h2 h3

/-- C2 witness: moves 15, 11, 14 on the solved 4x4 board; 11 and 14 are
both admissible when issued mid-flight and get queued. -/
theorem C2_witness :
    (moveBlockStart (moveBlockStart (moveBlockStart (mkBoard 4) 15 true).2 11 true).2
        14 true).2.moveQueue = [(11, true), (14, true)]
      ∧ queuedRun (mkBoard 4) 15 11 14 = sequentialRun (mkBoard 4) 15 11 14 :=
  C2_amended (mkBoard 4) 15 11 14 rfl rfl (by decide) (by decide) (by decide)

/-- C3: for every reachable board and every outcome of `shuffle` (any
sequence of random draws and any move count), the scrambled state is
solvable - a finite sequence of settled `moveBlock` calls reaches a
state where `checkWin` returns true. -/
theorem C3_shuffle_solvable (n : Nat) (s : BoardState) (h : Reachable n s)
    (mc : Nat) (ch : Nat → Nat) :
    ∃ vs : List Nat, checkWin (applyMoves (shuffle s mc ch) vs) = true :=
  (reachable_inv (Reachable.shuf mc ch h)).2

/-- C3 witness: the default shuffle of a fresh 4x4 board with the
constantly-zero draw sequence. -/
theorem C3_witness :
    ∃ vs : List Nat, checkWin (applyMoves (shuffle (mkBoard 4) 0 (fun _ => 0)) vs) = true :=
  C3_shuffle_solvable 4 (mkBoard 4) (Reachable.init (by decide)) 0 (fun _ => 0)

set_option maxRecDepth 400000 in
/-- C4 counterexample: `shuffle(0)` does not leave the board solved:
`moveCount || default` treats 0 as falsy, so the call runs the full
default 80-move scramble on a 4x4 board; with the draw sequence that
always picks the first possible move, the result fails `checkWin`. -/
theorem C4_counterexample : checkWin (shuffle (mkBoard 4) 0 (fun _ => 0)) = false := by
  decide

/-- C4 (amended): calling `shuffle` with a caller-supplied `moveCount` of
0 falls back to the default move count - 80 when the board size is 4,
otherwise 150 - exactly as if no count had been supplied; the board is
scrambled, not left solved. -/
theorem C4_amended (s : BoardState) (ch : Nat → Nat) :
    shuffle s 0 ch = shuffle s (if s.size = 4 then 80 else 150) ch := by
  unfold shuffle
  by_cases h : s.size = 4 <;> simp [h]

/-- C5: `checkWin` returns true iff every cell `(r, c)` holds
`r*size+c+1` except the final cell, which must hold 0; on the 4x4 solved
grid it returns true, and with the values at (2,2) and (3,3) swapped it
returns false. -/
theorem C5_checkWin_spec :
    (∀ s : BoardState, checkWin s = true ↔ WinSpec s)
      ∧ checkWin (stateOfRows 4
          [[1, 2, 3, 4], [5, 6, 7, 8], [9, 10, 11, 12], [13, 14, 15, 0]]) = true
      ∧ checkWin (stateOfRows 4
          [[1, 2, 3, 4], [5, 6, 7, 8], [9, 10, 0, 12], [13, 14, 15, 11]]) = false := by
  refine ⟨?_, by decide, by decide⟩
  intro s
  unfold checkWin WinSpec
  rw [List.all_eq_true]
  constructor
  · intro hall r hr c hc
    have h2 := hall r (List.mem_range.mpr hr)
    rw [List.all_eq_true] at h2
    have h3 := h2 c (List.mem_range.mpr hc)
    by_cases hl : r = s.size - 1 ∧ c = s.size - 1
    · rw [if_pos hl] at h3 ⊢
      exact beq_iff_eq.mp h3
    · rw [if_neg hl] at h3 ⊢
      exact beq_iff_eq.mp h3
  · intro hws r hr
    rw [List.all_eq_true]
    intro c hc
    rw [List.mem_range] at hr hc
    have h3 := hws r hr c hc
    by_cases hl : r = s.size - 1 ∧ c = s.size - 1
    · rw [if_pos hl] at h3 ⊢
      exact beq_iff_eq.mpr h3
    · rw [if_neg hl] at h3 ⊢
      exact beq_iff_eq.mpr h3

/-- C6: `canMove(r, c)` is true iff `(r, c)` is at Manhattan distance
exactly 1 from the blank (an orthogonal neighbour); in particular it is
false on the blank's own cell, and diagonal neighbours (Manhattan
distance 2) never qualify. -/
theorem C6_canMove_manhattan (s : BoardState) (r c : Nat) :
    (canMove s r c = true ↔
        ((r : Int) - (s.emptyRow : Int)).natAbs
          + ((c : Int) - (s.emptyCol : Int)).natAbs = 1)
      ∧ canMove s s.emptyRow s.emptyCol = false := by
  refine ⟨canMove_eq_manhattan s r c, ?_⟩
  cases hcm : canMove s s.emptyRow s.emptyCol with
  | false => rfl
  | true =>
    have h2 := (canMove_eq_manhattan s s.emptyRow s.emptyCol).mp hcm
    omega

/-- C7: the star rating is the fixed pure lookup table of (board size,
elapsed seconds), with exactly the claimed boundary values. -/
theorem C7_star_table :
    calculateStars 4 59 = 3 ∧ calculateStars 4 60 = 3 ∧ calculateStars 4 61 = 2
      ∧ calculateStars 4 300 = 1 ∧ calculateStars 4 301 = 0
      ∧ calculateStars 5 720 = 1 ∧ calculateStars 5 721 = 0 := by
  decide

/-- C8: `moveBlock` on the blank tile, or on a tile failing `canMove`,
resolves to false and leaves the whole board state - grid, blank, move
counter, history and queue - unchanged; the path is total (the embedding
returns a value on every input, mirroring that the source throws no
exception here). -/
theorem C8_rejection (s : BoardState) (v : Nat) (a : Bool)
    (h : v = 0 ∨ ∀ b : Block, getBlockByValue s v = some b → canMove s b.row b.col = false) :
    moveBlock s v a = (false, s) := by
  cases hfind : getBlockByValue s v with
  | none => exact moveBlock_not_found a hfind
  | some b =>
    rcases h with h0 | hcm
    · exact moveBlock_blank a hfind (by rw [getBlockByValue_value hfind, h0])
    · exact moveBlock_illegal a hfind (hcm b hfind)

/-- C8 witness: clicking the blank (value 0) on a fresh 4x4 board. -/
theorem C8_witness : moveBlock (mkBoard 4) 0 true = (false, mkBoard 4) :=
  C8_rejection (mkBoard 4) 0 true (Or.inl rfl)

/-- C9 counterexample: constructing a board with size 0 silently succeeds
(empty grid and blocks, `emptyRow = -1`), and a move operation on a
destroyed board resolves false - no exception is raised, refuting the
claim that these misuses fail fast with an error. -/
theorem C9_counterexample :
    (mkBoardRaw 0).emptyRow = -1 ∧ (mkBoardRaw 0).grid = [] ∧ (mkBoardRaw 0).blocks = []
      ∧ (moveAt (destroy (mkBoard 4)) 0 0 true).1 = false := by
  decide

/-- C9 (amended): programmer misuse is silently tolerated, never
signalled: for every non-positive size the constructor completes
normally with an empty grid, an empty block list and
`emptyRow = emptyCol = size - 1`, and `moveAt` on a destroyed board
resolves false with the state unchanged. -/
theorem C9_amended (z : Int) (hz : z ≤ 0) :
    (mkBoardRaw z).grid = [] ∧ (mkBoardRaw z).blocks = []
      ∧ (mkBoardRaw z).emptyRow = z - 1 ∧ (mkBoardRaw z).emptyCol = z - 1
      ∧ ∀ (s : BoardState) (r c : Nat) (a : Bool),
          moveAt (destroy s) r c a = (false, destroy s) := by
  have hn : z.toNat = 0 := Int.toNat_of_nonpos hz
  refine ⟨?_, ?_, rfl, rfl, ?_⟩
  · show (List.range z.toNat).map _ = []
    rw [hn]
    rfl
  · show initialBlocks z.toNat (mkGrid z.toNat) = []
    rw [hn]
    rfl
  · intro s r c a
    rfl

/-- C9 witness: the amended statement at size 0. -/
theorem C9_witness :
    (mkBoardRaw 0).grid = [] ∧ (mkBoardRaw 0).blocks = []
      ∧ (mkBoardRaw 0).emptyRow = 0 - 1 ∧ (mkBoardRaw 0).emptyCol = 0 - 1
      ∧ ∀ (s : BoardState) (r c : Nat) (a : Bool),
          moveAt (destroy s) r c a = (false, destroy s) :=
  C9_amended 0 (by decide)

/-- C10: in every reachable (quiescent) state, every non-blank block's
recorded cell agrees with the grid; the blank's block object keeps its
construction-time cell `(n-1, n-1)` forever (only `emptyRow`/`emptyCol`
track the blank); and after the first accepted move from a fresh board,
some non-blank block occupies exactly that stale cell. -/
theorem C10_blocks_sync (n : Nat) (s : BoardState) (h : Reachable n s) :
    (∀ b ∈ s.blocks, b.value ≠ 0 → s.grid b.row b.col = b.value)
      ∧ (∃ bs, s.blocks = bs ++ [⟨0, n - 1, n - 1⟩])
      ∧ (∀ v : Nat, (moveBlock (mkBoard n) v true).1 = true →
          ∃ b ∈ (moveBlock (mkBoard n) v true).2.blocks,
            b.value ≠ 0 ∧ b.row = n - 1 ∧ b.col = n - 1) := by
  obtain ⟨hinv, -⟩ := reachable_inv h
  refine ⟨?_, ?_, ?_⟩
  · intro b hmem hv
    exact (blocksShape_mem hinv.toCoreInv hmem hv).2.2
  · obtain ⟨bs, hbs, -, -⟩ := hinv.blocksShape
    exact ⟨bs, hbs⟩
  · intro v htrue
    cases hfind : getBlockByValue (mkBoard n) v with
    | none => rw [moveBlock_not_found true hfind] at htrue; simp at htrue
    | some b =>
      by_cases h0 : b.value = 0
      · rw [moveBlock_blank true hfind h0] at htrue; simp at htrue
      · cases hc : canMove (mkBoard n) b.row b.col with
        | false => rw [moveBlock_illegal true hfind hc] at htrue; simp at htrue
        | true =>
          have hmb := moveBlock_accepted true rfl rfl hfind h0 hc
          rw [hmb]
          show ∃ bb ∈ (moveApplied (mkBoard n) b).blocks,
            bb.value ≠ 0 ∧ bb.row = n - 1 ∧ bb.col = n - 1
          refine ⟨⟨b.value, (mkBoard n).emptyRow, (mkBoard n).emptyCol⟩, ?_, h0, rfl, rfl⟩
          have hmem := getBlockByValue_mem hfind
          have hfb : (fun bb : Block => if bb.value == b.value
              then { bb with row := (mkBoard n).emptyRow, col := (mkBoard n).emptyCol }
              else bb) b
              = ⟨b.value, (mkBoard n).emptyRow, (mkBoard n).emptyCol⟩ := by
            simp
          rw [← hfb]
          exact List.mem_map_of_mem _ hmem

/-- C10 witness: the first move (tile 15) on a fresh 4x4 board. -/
theorem C10_witness :
    ∃ b ∈ (moveBlock (mkBoard 4) 15 true).2.blocks,
      b.value ≠ 0 ∧ b.row = 4 - 1 ∧ b.col = 4 - 1 :=
  (C10_blocks_sync 4 (mkBoard 4) (Reachable.init (by decide))).2.2 15 (by decide)
